import Mathlib

/-!
Verification development for the VideoService repository (src/main.go).

The Go program is shallowly embedded below: pure helpers from the Go
standard library that the program relies on (path/filepath Clean, Join,
Base, Ext; strings.TrimSuffix / strings.TrimPrefix on Linux, where the
path separator is the slash) are translated as executable Lean functions
on lists of characters, and the HTTP handlers are translated as pure
functions over an explicit application state (catalog rows plus a file
system map), with the external effects (network fetches, directory
creation, file creation and copying, playlist decoding, URL parsing,
database faults) supplied by an oracle record so that every control path
of the handlers is represented.
-/

namespace VideoService

/-! Part: Go path/filepath, specialised to the slash separator (Linux) -/

/-- A path component: a run of characters between slashes. -/
abbrev Comp := List Char

/-- The component list of the parent-directory marker. -/
def dd : Comp := ['.', '.']

/-- Split a character list on the slash character.  Mirrors the way
Go path cleaning scans elements between separators.  Always returns a
nonempty list of components. -/
def splitChar : List Char → List Comp
  | [] => [[]]
  | c :: cs =>
    match splitChar cs with
    | [] => [[]]
    | h :: t => if c = '/' then [] :: h :: t else (c :: h) :: t

/-- Action of a dot-dot component on the stack: kept at the front of a
relative path, dropped at the root of an absolute one, and otherwise
popping the topmost normal component. -/
def popDD (rooted : Bool) : List Comp → List Comp
  | [] => if rooted then [] else [dd]
  | top :: rest => if top = dd then dd :: top :: rest else rest

/-- One step of the stack-based element processing performed by Go
filepath.Clean: empty and dot components are dropped, a dot-dot
component acts through popDD, and every other component is pushed. -/
def cleanStep (rooted : Bool) (acc : List Comp) (comp : Comp) : List Comp :=
  if comp = [] ∨ comp = ['.'] then acc
  else if comp = dd then popDD rooted acc
  else comp :: acc

/-- Process a list of components through the Clean stack. -/
def cleanFold (rooted : Bool) (acc : List Comp) (comps : List Comp) : List Comp :=
  comps.foldl (cleanStep rooted) acc

/-- Reassemble components with slashes between them. -/
def joinSlash : List Comp → List Char
  | [] => []
  | [c] => c
  | c :: rest => c ++ '/' :: joinSlash rest

/-- Reassemble a processed relative-path stack into a path, the dot
path when nothing remains. -/
def assembleRel (stack : List Comp) : List Char :=
  match stack.reverse with
  | [] => ['.']
  | comps => joinSlash comps

/-- Reassemble a processed rooted-path stack into a path, the bare
slash when nothing remains. -/
def assembleAbs (stack : List Comp) : List Char :=
  match stack.reverse with
  | [] => ['/']
  | comps => '/' :: joinSlash comps

/-- Go filepath.Clean on Linux at the character-list level. -/
def cleanChars : List Char → List Char
  | [] => ['.']
  | c :: cs =>
    if c = '/' then assembleAbs (cleanFold true [] (splitChar (c :: cs)))
    else assembleRel (cleanFold false [] (splitChar (c :: cs)))

/-- Go filepath.Clean on Linux: lexical normalisation of a path. -/
def goClean (s : String) : String := String.mk (cleanChars s.data)

/-- Drop leading empty elements, as Go filepath.Join does before joining. -/
def dropEmpty : List String → List String
  | [] => []
  | s :: rest => if s = "" then dropEmpty rest else s :: rest

/-- Join a list of strings with slashes. -/
def joinStr : List String → String
  | [] => ""
  | [s] => s
  | s :: rest => s ++ "/" ++ joinStr rest

/-- Go filepath.Join on Linux: join the elements from the first
nonempty one with slashes and Clean the result; all-empty input gives
the empty string. -/
def filepathJoin (elems : List String) : String :=
  match dropEmpty elems with
  | [] => ""
  | es => goClean (joinStr es)

/-- Go filepath.Base on Linux: the last element of the path, after
trailing slashes are removed; "." for the empty path and "/" for a
path of only slashes. -/
def filepathBase (s : String) : String :=
  if s = "" then "."
  else
    let cs := (s.data.reverse.dropWhile (fun c => c = '/')).reverse
    if cs = [] then "/"
    else String.mk ((cs.reverse.takeWhile (fun c => c ≠ '/')).reverse)

/-- Helper for filepathExt: scan the reversed character list for the
last dot of the final path element. -/
def extFromRev (acc : List Char) : List Char → String
  | [] => ""
  | c :: rest =>
    if c = '/' then ""
    else if c = '.' then String.mk ('.' :: acc)
    else extFromRev (c :: acc) rest

/-- Go filepath.Ext: the suffix of the path starting at the final dot
of the last element, or the empty string when there is none. -/
def filepathExt (s : String) : String := extFromRev [] s.data.reverse

/-- Does the first character list lead the second (prefix test)? -/
def leadsWith : List Char → List Char → Bool
  | [], _ => true
  | _ :: _, [] => false
  | p :: ps, c :: cs => p = c && leadsWith ps cs

/-- String prefix test built on leadsWith. -/
def strLeads (p s : String) : Bool := leadsWith p.data s.data

/-- Go strings.TrimSuffix. -/
def trimSuf (s suf : String) : String :=
  if s.data.length ≥ suf.data.length ∧ s.data.drop (s.data.length - suf.data.length) = suf.data then
    String.mk (s.data.take (s.data.length - suf.data.length))
  else s

/-- Go strings.TrimPrefix. -/
def trimLead (s p : String) : String :=
  if leadsWith p.data s.data then String.mk (s.data.drop p.data.length) else s

/-! Part: Data model: catalog rows, file system, playlist values

The SQLite table videos (title TEXT, path TEXT) is modelled as a list of
rows in insertion order; queries without an ORDER BY return rows in that
order for this table, so the first matching row of the list models what
QueryRow returns.  The file system is a map from path to byte content;
os.Create truncates the destination (an empty file) and io.Copy then
fills it, so both writes are recorded. -/

/-- One row of the videos table. -/
abbrev Catalog := List (String × String)

/-- Byte content of a file. -/
abbrev Bytes := List Nat

/-- The local file system, path to content. -/
abbrev FS := String → Option Bytes

/-- The empty file system. -/
def emptyFS : FS := fun _ => none

/-- Write a file, overwriting any existing content at that path. -/
def fswrite (fs : FS) (p : String) (b : Bytes) : FS :=
  fun q => if q = p then some b else fs q

/-- The SELECT EXISTS query of FileExistsByTitle: is some row with this
exact title present? -/
def existsTitle (cat : Catalog) (t : String) : Bool :=
  cat.any (fun r => r.1 == t)

/-- The SELECT path FROM videos WHERE title = ? query of
videoLinkHandler: path of the first row with this title. -/
def lookupTitle (cat : Catalog) (t : String) : Option String :=
  (cat.find? (fun r => r.1 == t)).map (fun r => r.2)

/-- The insert-unless-exists idiom used by both InitDB and
downloadHandler: check FileExistsByTitle and INSERT only when absent.
The ok flag is false when the INSERT itself fails, in which case the
error is only logged and the catalog is unchanged. -/
def insertUnlessExists (cat : Catalog) (t p : String) (ok : Bool) : Catalog :=
  if existsTitle cat t then cat
  else if ok then cat ++ [(t, p)] else cat

/-- A media segment of a parsed playlist: only the URI field is read by
the program. -/
structure Segment where
  uri : String
deriving DecidableEq

/-- The m3u8 list type returned by m3u8.DecodeFrom: a media playlist or
a master playlist. -/
inductive M3UKind where
  | media
  | master
deriving DecidableEq

/-- The scheme and host fields of a parsed net/url URL, the only parts
the program reads. -/
structure UrlParts where
  scheme : String
  host : String
deriving DecidableEq

/-! Part: Handler events and responses -/

/-- What a handler does to the response writer: an http.Error with a
status and message, a 200 JSON body, a 200 plain body written through
WriteHeader and Write, a silent return that writes nothing, or a
log.Fatalf that terminates the process. -/
inductive Outcome where
  | httpError (status : Nat) (msg : String)
  | json (body : String)
  | plain (body : String)
  | silent
  | fatal
deriving DecidableEq

/-- A rendered HTTP response: status, headers set by the application
code, body. -/
structure HttpResponse where
  status : Nat
  headers : List (String × String)
  body : String
deriving DecidableEq

/-- Render a handler outcome as the response the net/http layer sends:
http.Error sets a text content type and nosniff header, the JSON
handlers set the application/json content type, a bare Write pair sets
no header in the application code, and a silent return lets the server
send an empty 200.  A fatal outcome produces no response at all; the
zero status marks that case. -/
def toResponse : Outcome → HttpResponse
  | .httpError s m =>
    ⟨s, [("Content-Type", "text/plain; charset=utf-8"), ("X-Content-Type-Options", "nosniff")], m ++ "\n"⟩
  | .json b => ⟨200, [("Content-Type", "application/json")], b⟩
  | .plain b => ⟨200, [], b⟩
  | .silent => ⟨200, [], ""⟩
  | .fatal => ⟨0, [], ""⟩

/-- Mutable application state threaded through a request: the catalog
rows and the local file system. -/
structure AppState where
  catalog : Catalog
  fs : FS

/-- The decoded body of a POST /video request. -/
structure VideoRequest where
  title : String
  location : String

/-- The decoded body of a POST /download request. -/
structure ReplicaRequest where
  url : String

/-- Oracle for the effects a /download request performs: URL parsing,
directory creation, the catalog Exists fault flag, Insert success, HTTP
fetches, file creation, io.Copy success, ReadFile success and playlist
decoding.  Each oracle answers positively or with the error the Go call
would return. -/
structure MirrorWorld where
  parseURL : String → Option UrlParts
  mkdirOk : Bool
  existsFault : Bool
  insertOk : Bool
  fetch : String → Option Bytes
  createOk : String → Bool
  copyOk : String → Bool
  readOk : Bool
  decode : Bytes → Option (M3UKind × List (Option Segment))

/-! Part: JSON encoding (encoding/json with default HTML escaping) -/

/-- Escape one character the way encoding/json does for the characters
this program can produce (quote, backslash and the HTML-escaped trio);
other printable characters are passed through. -/
def jsonEscChar (c : Char) : List Char :=
  if c = '"' then ['\\', '"']
  else if c = '\\' then ['\\', '\\']
  else if c = '<' then '\\' :: 'u' :: '0' :: '0' :: '3' :: 'c' :: []
  else if c = '>' then '\\' :: 'u' :: '0' :: '0' :: '3' :: 'e' :: []
  else if c = '&' then '\\' :: 'u' :: '0' :: '0' :: '2' :: '6' :: []
  else [c]

/-- A JSON string literal. -/
def jsonQuote (s : String) : String :=
  "\"" ++ String.mk (s.data.map jsonEscChar).flatten ++ "\""

/-- The body json.NewEncoder writes for a VideoResponse value,
including the trailing newline the encoder adds. -/
def urlBody (u : String) : String :=
  "\x7b\"url\":" ++ jsonQuote u ++ "\x7d\n"

/-- Comma-join for JSON arrays. -/
def joinStrComma : List String → String
  | [] => ""
  | [s] => s
  | s :: rest => s ++ "," ++ joinStrComma rest

/-- The body json.NewEncoder writes for a VideoTitleResponse value: a
nil Go slice encodes as null, a non-nil slice as an array. -/
def titlesBody : Option (List String) → String
  | none => "\x7b\"titles\":null\x7d\n"
  | some l => "\x7b\"titles\":[" ++ joinStrComma (l.map jsonQuote) ++ "]\x7d\n"

/-- Go append on a possibly-nil slice: appending to nil allocates. -/
def goAppend : Option (List String) → String → Option (List String)
  | none, t => some [t]
  | some l, t => some (l ++ [t])

/-! Part: The /download handler (downloadHandler in main.go)

The request body is taken already decoded; a body that fails JSON
decoding is answered with 400 before any of the logic below runs.  The
named helpers below are the expressions the handler computes from the
request URL. -/

/-- filename := filepath.Base(req.Url). -/
def jobFilename (url : String) : String := filepathBase url

/-- name := strings.TrimSuffix(filename, ".m3u8"). -/
def jobName (url : String) : String := trimSuf (jobFilename url) ".m3u8"

/-- dir := filepath.Join("videos", name). -/
def jobDir (url : String) : String := filepathJoin ["videos", jobName url]

/-- path := fmt.Sprintf("videos/%s/%s", name, filename), the value
registered in the catalog. -/
def dbPath (url : String) : String :=
  "videos/" ++ jobName url ++ "/" ++ jobFilename url

/-- output := filepath.Join(dir, filename), the local playlist file. -/
def playlistOutput (url : String) : String :=
  filepathJoin [jobDir url, jobFilename url]

/-- Result of the segment download loop: the loop either runs to the
end or the handler returns early at the first failing segment; either
way the files written so far stay on disk. -/
inductive SegLoopResult where
  | ok (fs : FS)
  | aborted (fs : FS)

/-- The file system carried by a loop result. -/
def resultFS : SegLoopResult → FS
  | .ok fs => fs
  | .aborted fs => fs

/-- Did the loop run to completion? -/
def resultOk : SegLoopResult → Bool
  | .ok _ => true
  | .aborted _ => false

/-- The for-loop over mediaPlaylist.Segments in downloadHandler: nil
entries and entries with an empty URI are passed over; for the others
the segment URL is baseURL + "/" + name + "/" + uri, the destination is
filepath.Join(dir, uri), os.Create truncates the destination and
io.Copy fills it; the first Get, Create or Copy error makes the handler
return. -/
def segmentLoop (w : MirrorWorld) (dir name baseURL : String) :
    List (Option Segment) → FS → SegLoopResult
  | [], fs => .ok fs
  | none :: rest, fs => segmentLoop w dir name baseURL rest fs
  | some s :: rest, fs =>
    if s.uri = "" then segmentLoop w dir name baseURL rest fs
    else
      match w.fetch (baseURL ++ "/" ++ name ++ "/" ++ s.uri) with
      | none => .aborted fs
      | some body =>
        if w.createOk (filepathJoin [dir, s.uri]) then
          if w.copyOk (filepathJoin [dir, s.uri]) then
            segmentLoop w dir name baseURL rest
              (fswrite (fswrite fs (filepathJoin [dir, s.uri]) []) (filepathJoin [dir, s.uri]) body)
          else .aborted (fswrite fs (filepathJoin [dir, s.uri]) [])
        else .aborted fs

/-- downloadHandler for a POST request with a decoded body, line by
line: 400 on an empty url; silent return on a URL parse error; mkdir;
insert-unless-exists into the catalog with the sprintf path; silent
return on playlist fetch, create or copy error; read the playlist back;
silent return on a decode error; run the segment loop only for a media
playlist, returning early if it aborts; otherwise answer 200 with the
plain confirmation text. -/
def downloadHandler (w : MirrorWorld) (req : ReplicaRequest) (st : AppState) :
    Outcome × AppState :=
  if req.url = "" then (.httpError 400 "Missing URL in request body", st)
  else
    match w.parseURL req.url with
    | none => (.silent, st)
    | some u =>
      let baseURL := u.scheme ++ "://" ++ u.host
      let name := jobName req.url
      let dir := jobDir req.url
      if w.mkdirOk = false then (.silent, st)
      else if w.existsFault then (.fatal, st)
      else
        let st1 : AppState :=
          ⟨insertUnlessExists st.catalog name (dbPath req.url) w.insertOk, st.fs⟩
        let output := playlistOutput req.url
        match w.fetch req.url with
        | none => (.silent, st1)
        | some body =>
          if w.createOk output = false then (.silent, st1)
          else
            let st2 : AppState := ⟨st1.catalog, fswrite st1.fs output []⟩
            if w.copyOk output = false then (.silent, st2)
            else
              let st3 : AppState := ⟨st2.catalog, fswrite st2.fs output body⟩
              if w.readOk = false then (.silent, st3)
              else
                match w.decode ((st3.fs output).getD []) with
                | none => (.silent, st3)
                | some (kind, segs) =>
                  match kind with
                  | .media =>
                    match segmentLoop w dir name baseURL segs st3.fs with
                    | .aborted fs2 => (.silent, ⟨st3.catalog, fs2⟩)
                    | .ok fs2 =>
                      (.plain "Downloaded and saved files successfully", ⟨st3.catalog, fs2⟩)
                  | .master => (.plain "Downloaded and saved files successfully", st3)

/-! Part: The /video handler (videoLinkHandler in main.go) -/

/-- videoLinkHandler: 405 on a non-POST method, 400 on an empty title
(a body that fails JSON decoding is also answered with 400 before this
point), 500 on a store fault, 404 when no row matches, otherwise a JSON
body whose url is the request host plus the catalog path with the
videos/ storage prefix trimmed. -/
def videoLinkHandler (lookupFault : Bool) (method host : String)
    (req : VideoRequest) (cat : Catalog) : Outcome :=
  if method ≠ "POST" then .httpError 405 "Method not supported"
  else if req.title = "" then .httpError 400 "Missing title in request body"
  else if lookupFault then .httpError 500 "Database error"
  else
    match lookupTitle cat req.title with
    | none => .httpError 404 "Video not found"
    | some videoPath =>
      .json (urlBody ("http://" ++ host ++ "/" ++ trimLead videoPath "videos/"))

/-! Part: The /videos handler (getAllVideosHandler in main.go) -/

/-- getAllVideosHandler: 405 on a non-GET method, 500 on a query or
scan fault, otherwise the titles of all rows appended one by one to a
slice that starts nil, encoded as JSON. -/
def getAllVideosHandler (queryFault scanFault : Bool) (method : String)
    (cat : Catalog) : Outcome :=
  if method ≠ "GET" then .httpError 405 "Method not supported"
  else if queryFault then .httpError 500 "Database query error"
  else if scanFault then .httpError 500 "Error scanning video data"
  else .json (titlesBody (cat.foldl (fun acc r => goAppend acc r.1) none))

/-! Part: Routing and CORS (main and addHeaders in main.go) -/

/-- An inbound request as the handlers see it: method, path, host and
the decoded bodies for the two POST routes. -/
structure Request where
  method : String
  path : String
  host : String
  videoBody : VideoRequest
  dlBody : ReplicaRequest

/-- addHeaders: set Access-Control-Allow-Origin * on the response and
delegate to the wrapped handler. -/
def addHeaders (h : Request → HttpResponse) (r : Request) : HttpResponse :=
  let resp := h r
  ⟨resp.status, ("Access-Control-Allow-Origin", "*") :: resp.headers, resp.body⟩

/-- The mux registered in main: the three exact patterns /video,
/download and /videos dispatch to their handlers unwrapped, and every
other path goes to the file server, which alone is wrapped in
addHeaders. -/
def serve (w : MirrorWorld) (lookupFault queryFault scanFault : Bool)
    (fileServer : Request → HttpResponse) (req : Request) (st : AppState) :
    HttpResponse × AppState :=
  if req.path = "/video" then
    (toResponse (videoLinkHandler lookupFault req.method req.host req.videoBody st.catalog), st)
  else if req.path = "/download" then
    if req.method ≠ "POST" then (toResponse (.httpError 405 "Method not supported"), st)
    else
      let r := downloadHandler w req.dlBody st
      (toResponse r.1, r.2)
  else if req.path = "/videos" then
    (toResponse (getAllVideosHandler queryFault scanFault req.method st.catalog), st)
  else (addHeaders fileServer req, st)

/-! Part: Catalog Sync (the filepath.Walk in InitDB)

The walk is modelled by the list of paths it visits, in order; on Linux
filepath.ToSlash is the identity, so the stored normalised path is the
walked path itself.  Insert errors during the walk are logged and
skipped in the code; the fault-free run modelled here always inserts. -/

/-- The title InitDB derives for a walked playlist file:
strings.TrimSuffix(info.Name(), ".m3u8"), and info.Name() is the base
name of the walked path. -/
def syncTitle (p : String) : String := trimSuf (filepathBase p) ".m3u8"

/-- One walk callback invocation: files whose extension is .m3u8 are
inserted unless their title already exists; everything else is passed
over. -/
def syncStep (cat : Catalog) (p : String) : Catalog :=
  if filepathExt p = ".m3u8" then insertUnlessExists cat (syncTitle p) p true
  else cat

/-- The whole startup walk over a given path list. -/
def catalogSync (cat : Catalog) (paths : List String) : Catalog :=
  paths.foldl syncStep cat

/-- No row title occurs twice. -/
def titleNodup (cat : Catalog) : Prop := (cat.map Prod.fst).Nodup

/-! Part: Spec-side description of the segment phase (for the refinement
claim about the mirror loop) -/

/-- The segment entries the loop acts on: every non-nil entry with a
non-empty URI, in document order. -/
def validSegs : List (Option Segment) → List Segment
  | [] => []
  | none :: rest => validSegs rest
  | some s :: rest => if s.uri = "" then validSegs rest else s :: validSegs rest

/-- Stated from the claim wording: for each segment in order, resolve
its absolute URL as baseURL + "/" + name + "/" + uri, download it to
the videos/name/uri location (the lexically cleaned form of that path,
which is what writing through filepath.Join produces), overwriting any
existing file; the first download or write failure aborts the whole run
at once, with no retry, no skip, and no cleanup of the files already
written (a failed copy leaves the truncated destination file behind,
matching os.Create followed by a failing io.Copy). -/
def specMirrorSegments (w : MirrorWorld) (name baseURL : String) :
    List Segment → FS → SegLoopResult
  | [], fs => .ok fs
  | s :: rest, fs =>
    match w.fetch (baseURL ++ "/" ++ name ++ "/" ++ s.uri) with
    | none => .aborted fs
    | some body =>
      if w.createOk (filepathJoin ["videos", name, s.uri]) then
        if w.copyOk (filepathJoin ["videos", name, s.uri]) then
          specMirrorSegments w name baseURL rest
            (fswrite fs (filepathJoin ["videos", name, s.uri]) body)
        else .aborted (fswrite fs (filepathJoin ["videos", name, s.uri]) [])
      else .aborted fs

/-! Part: Invariant of the Clean stack (used to relate Join of a cleaned
path to Join of the original path) -/

/-- A component that Clean can output: nonempty, not the dot component,
and free of slashes. -/
def goodComp (c : Comp) : Prop := c ≠ [] ∧ c ≠ ['.'] ∧ '/' ∉ c

/-- Below any dot-dot component of the stack there are only dot-dot
components. -/
def ddBelow : List Comp → Prop
  | [] => True
  | c :: rest => (c = dd → ∀ x ∈ rest, x = dd) ∧ ddBelow rest

/-- Invariant of the relative-path Clean stack. -/
def stackInv (acc : List Comp) : Prop :=
  (∀ c ∈ acc, goodComp c) ∧ ddBelow acc

/-! Part: Concrete oracles, requests and states used by closed theorems -/

/-- A request URL whose playlist file is x.m3u8. -/
def urlX : String := "h://a/x.m3u8"

/-- The parse of urlX. -/
def upX : UrlParts := ⟨"h", "a"⟩

/-- World whose URL parser rejects every URL. -/
def wParseFail : MirrorWorld :=
  ⟨fun _ => none, true, false, true, fun _ => none, fun _ => true, fun _ => true, true,
    fun _ => none⟩

/-- World in which the catalog Exists query faults. -/
def wExistsFault : MirrorWorld :=
  ⟨fun _ => some upX, true, true, true, fun _ => some [7], fun _ => true, fun _ => true, true,
    fun _ => none⟩

/-- World in which everything up to the playlist decode succeeds and
the decode fails. -/
def wDecodeFail : MirrorWorld :=
  ⟨fun _ => some upX, true, false, true, fun _ => some [7], fun _ => true, fun _ => true, true,
    fun _ => none⟩

/-- World in which the decode yields a master playlist. -/
def wMaster : MirrorWorld :=
  ⟨fun _ => some upX, true, false, true, fun _ => some [7], fun _ => true, fun _ => true, true,
    fun _ => some (.master, [some ⟨"s0.ts"⟩])⟩

/-- World in which every network fetch fails. -/
def wNoFetch : MirrorWorld :=
  ⟨fun _ => some upX, true, false, true, fun _ => none, fun _ => true, fun _ => true, true,
    fun _ => none⟩

/-- World in which the catalog INSERT fails while everything before it
succeeds. -/
def wInsertFail : MirrorWorld :=
  ⟨fun _ => some upX, true, false, false, fun _ => none, fun _ => true, fun _ => true, true,
    fun _ => none⟩

/-- World in which everything succeeds and the playlist is a media
playlist holding one segment whose URI climbs out of the destination
directory. -/
def wEscape : MirrorWorld :=
  ⟨fun _ => some upX, true, false, true, fun _ => some [7], fun _ => true, fun _ => true, true,
    fun _ => some (.media, [some ⟨"../../evil.ts"⟩])⟩

/-- The empty application state. -/
def st0 : AppState := ⟨[], emptyFS⟩

/-- A trivial wrapped file server used where only headers matter. -/
def fs0 : Request → HttpResponse := fun _ => ⟨200, [], ""⟩

/-- A GET request for the /videos route. -/
def reqVideos : Request := ⟨"GET", "/videos", "h", ⟨"", ""⟩, ⟨""⟩⟩

/-- A GET request for a path served by the static file server. -/
def reqStatic : Request := ⟨"GET", "/index/index.m3u8", "h", ⟨"", ""⟩, ⟨""⟩⟩

/-- A catalog with the single mirrored title index. -/
def cat7 : Catalog := [("index", "videos/index/index.m3u8")]

/-- A storage tree walk: the root, one directory, one playlist and one
segment file. -/
def paths8 : List String :=
  ["videos", "videos/a", "videos/a/index.m3u8", "videos/a/seg0.ts"]

/-! Part: Sanity checks of the path embedding against documented Go
behaviour -/

example : goClean "videos/index/../../evil.ts" = "evil.ts" := by decide
example : goClean "videos//x/./y" = "videos/x/y" := by decide
example : goClean "/../x" = "/x" := by decide
example : goClean "videos/.." = "." := by decide
example : goClean "../../x" = "../../x" := by decide
example : filepathJoin ["videos", "index"] = "videos/index" := by decide
example : filepathJoin ["videos/index", "../../evil.ts"] = "evil.ts" := by decide
example : filepathBase "https://cdn.example/show/index.m3u8" = "index.m3u8" := by decide
example : filepathExt "videos/a/index.m3u8" = ".m3u8" := by decide
example : filepathExt "videos/a/segment0.ts" = ".ts" := by decide
example : trimSuf "index.m3u8" ".m3u8" = "index" := by decide
example : trimLead "videos/index/index.m3u8" "videos/" = "index/index.m3u8" := by decide

/-! Part: Lemmas about splitting and joining path components -/

theorem splitChar_ne_nil (cs : List Char) : splitChar cs ≠ [] := by
  cases cs with
  | nil => simp [splitChar]
  | cons c rest =>
    simp only [splitChar]
    rcases h : splitChar rest with _ | ⟨a, b⟩
    · simp
    · by_cases hc : c = '/' <;> simp [hc]

theorem splitChar_append (xs ys : List Char) :
    splitChar (xs ++ '/' :: ys) = splitChar xs ++ splitChar ys := by
  induction xs with
  | nil =>
    simp only [List.nil_append, splitChar]
    rcases h : splitChar ys with _ | ⟨a, b⟩
    · exact absurd h (splitChar_ne_nil ys)
    · simp [splitChar]
  | cons x xs ih =>
    rcases h : splitChar xs with _ | ⟨a, b⟩
    · exact absurd h (splitChar_ne_nil xs)
    · simp only [List.cons_append, splitChar, List.append_eq]
      rw [ih, h]
      by_cases hx : x = '/' <;> simp [hx]

theorem splitChar_no_sep (cs : List Char) (h : '/' ∉ cs) : splitChar cs = [cs] := by
  induction cs with
  | nil => simp [splitChar]
  | cons c rest ih =>
    have hc : c ≠ '/' := fun e => h (by simp [e])
    have hr : '/' ∉ rest := fun m => h (by simp [m])
    simp [splitChar, ih hr, hc]

theorem mem_splitChar_no_sep (cs : List Char) :
    ∀ c ∈ splitChar cs, '/' ∉ c := by
  induction cs with
  | nil => simp [splitChar]
  | cons c rest ih =>
    rcases h : splitChar rest with _ | ⟨a, b⟩
    · exact absurd h (splitChar_ne_nil rest)
    · intro comp hmem
      simp only [splitChar, h] at hmem
      by_cases hc : c = '/'
      · simp only [hc, if_pos rfl] at hmem
        rcases List.mem_cons.mp hmem with h1 | h1
        · simp [h1]
        · exact ih comp (by rw [h]; exact h1)
      · simp only [if_neg hc] at hmem
        rcases List.mem_cons.mp hmem with h1 | h1
        · subst h1
          intro hm
          rcases List.mem_cons.mp hm with e | m
          · exact hc e.symm
          · exact ih a (by rw [h]; exact List.mem_cons_self a b) m
        · exact ih comp (by rw [h]; exact List.mem_cons_of_mem a h1)

theorem splitChar_joinSlash (comps : List Comp) (hne : comps ≠ [])
    (hns : ∀ c ∈ comps, '/' ∉ c) :
    splitChar (joinSlash comps) = comps := by
  induction comps with
  | nil => exact absurd rfl hne
  | cons c rest ih =>
    cases rest with
    | nil => simpa [joinSlash] using splitChar_no_sep c (hns c (by simp))
    | cons d ds =>
      have hj : joinSlash (c :: d :: ds) = c ++ '/' :: joinSlash (d :: ds) := by
        simp [joinSlash]
      rw [hj, splitChar_append, splitChar_no_sep c (hns c (by simp)),
        ih (by simp) (fun x hx => hns x (by simp [hx]))]
      rfl

/-! Part: The Clean stack invariant and the resume property -/

theorem stackInv_nil : stackInv [] := by
  constructor
  · simp
  · simp [ddBelow]

theorem cleanStep_inv (acc : List Comp) (comp : Comp)
    (hinv : stackInv acc) (hns : '/' ∉ comp) :
    stackInv (cleanStep false acc comp) := by
  rcases hinv with ⟨hgood, hdd⟩
  unfold cleanStep
  by_cases h1 : comp = [] ∨ comp = ['.']
  · rw [if_pos h1]
    exact ⟨hgood, hdd⟩
  · rw [if_neg h1]
    have h1a : comp ≠ [] := fun e => h1 (Or.inl e)
    have h1b : comp ≠ ['.'] := fun e => h1 (Or.inr e)
    by_cases h2 : comp = dd
    · subst h2
      rw [if_pos rfl]
      cases acc with
      | nil =>
        rw [show popDD false [] = [dd] from by decide]
        refine ⟨?_, ?_⟩
        · intro c hc
          rw [List.mem_singleton] at hc
          exact hc ▸ ⟨by decide, by decide, by decide⟩
        · simp [ddBelow]
      | cons top rest =>
        simp only [popDD]
        simp only [ddBelow] at hdd
        by_cases h3 : top = dd
        · rw [if_pos h3]
          refine ⟨?_, ?_⟩
          · intro c hc
            rcases List.mem_cons.mp hc with e | m
            · exact e ▸ ⟨by decide, by decide, by decide⟩
            · exact hgood c m
          · refine ⟨?_, ?_⟩
            · intro _ x hx
              rcases List.mem_cons.mp hx with e | m
              · exact e ▸ h3
              · exact hdd.1 h3 x m
            · exact ⟨hdd.1, hdd.2⟩
        · rw [if_neg h3]
          exact ⟨fun c hc => hgood c (List.mem_cons_of_mem top hc), hdd.2⟩
    · rw [if_neg h2]
      refine ⟨?_, ?_⟩
      · intro c hc
        rcases List.mem_cons.mp hc with e | m
        · exact e ▸ ⟨h1a, h1b, hns⟩
        · exact hgood c m
      · exact ⟨fun e => absurd e h2, hdd⟩

theorem cleanFold_inv (comps : List Comp) (acc : List Comp)
    (hinv : stackInv acc) (hns : ∀ c ∈ comps, '/' ∉ c) :
    stackInv (cleanFold false acc comps) := by
  induction comps generalizing acc with
  | nil => simpa [cleanFold] using hinv
  | cons c rest ih =>
    simp only [cleanFold, List.foldl_cons]
    exact ih (cleanStep false acc c)
      (cleanStep_inv acc c hinv (hns c (by simp)))
      (fun x hx => hns x (by simp [hx]))

theorem stackInv_shape (acc : List Comp) (hinv : stackInv acc) :
    ∃ ns k, acc = ns ++ List.replicate k dd ∧ ∀ c ∈ ns, goodComp c ∧ c ≠ dd := by
  induction acc with
  | nil => exact ⟨[], 0, by simp, by simp⟩
  | cons c rest ih =>
    rcases hinv with ⟨hgood, hdd⟩
    simp only [ddBelow] at hdd
    by_cases hc : c = dd
    · have hall : ∀ x ∈ rest, x = dd := hdd.1 hc
      have hrest : rest = List.replicate rest.length dd :=
        List.eq_replicate_iff.mpr ⟨rfl, hall⟩
      refine ⟨[], rest.length + 1, ?_, by simp⟩
      rw [List.nil_append, List.replicate_succ, ← hrest, hc]
    · rcases ih ⟨fun x hx => hgood x (List.mem_cons_of_mem c hx), hdd.2⟩ with ⟨ns, k, he, hns⟩
      refine ⟨c :: ns, k, by rw [he]; rfl, ?_⟩
      intro x hx
      rcases List.mem_cons.mp hx with e | m
      · exact e ▸ ⟨hgood c (by simp), hc⟩
      · exact hns x m

theorem cleanFold_push (ns : List Comp) (acc : List Comp)
    (h : ∀ c ∈ ns, goodComp c ∧ c ≠ dd) :
    cleanFold false acc ns = ns.reverse ++ acc := by
  induction ns generalizing acc with
  | nil => simp [cleanFold]
  | cons c rest ih =>
    have hc := h c (by simp)
    rcases hc.1 with ⟨h1, h2, _⟩
    have hstep : cleanStep false acc c = c :: acc := by
      unfold cleanStep
      rw [if_neg (not_or.mpr ⟨h1, h2⟩), if_neg hc.2]
    simp only [cleanFold, List.foldl_cons, hstep]
    rw [show List.foldl (cleanStep false) (c :: acc) rest = cleanFold false (c :: acc) rest from rfl,
      ih (c :: acc) (fun x hx => h x (by simp [hx]))]
    simp

theorem cleanFold_dd (k j : Nat) :
    cleanFold false (List.replicate j dd) (List.replicate k dd)
      = List.replicate (j + k) dd := by
  induction k generalizing j with
  | zero => simp [cleanFold]
  | succ k ih =>
    have hstep : cleanStep false (List.replicate j dd) dd = List.replicate (j + 1) dd := by
      unfold cleanStep
      rw [if_neg (by decide), if_pos rfl]
      cases j with
      | zero => simp [popDD]
      | succ j => simp [popDD, List.replicate_succ]
    rw [List.replicate_succ]
    unfold cleanFold
    rw [List.foldl_cons, hstep]
    have hih := ih (j + 1)
    unfold cleanFold at hih
    rw [hih]
    congr 1
    omega

theorem cleanFold_resume (acc : List Comp) (hinv : stackInv acc) :
    cleanFold false [] acc.reverse = acc := by
  rcases stackInv_shape acc hinv with ⟨ns, k, rfl, hns⟩
  rw [List.reverse_append, List.reverse_replicate]
  unfold cleanFold
  rw [List.foldl_append]
  have h1 : List.foldl (cleanStep false) [] (List.replicate k dd) = List.replicate k dd := by
    have h := cleanFold_dd k 0
    simpa [cleanFold] using h
  rw [h1]
  have h2 := cleanFold_push ns.reverse (List.replicate k dd)
    (fun c hc => hns c (List.mem_reverse.mp hc))
  simpa [cleanFold] using h2

/-! Part: Cleaning a cleaned path resumes where the first pass ended -/

theorem cleanFold_append (acc a b : List Comp) :
    cleanFold false acc (a ++ b) = cleanFold false (cleanFold false acc a) b := by
  unfold cleanFold
  exact List.foldl_append _ _ _ _

theorem cleanChars_cons (c : Char) (cs : List Char) (hc : c ≠ '/') :
    cleanChars (c :: cs) = assembleRel (cleanFold false [] (splitChar (c :: cs))) := by
  simp only [cleanChars]
  rw [if_neg hc]

theorem cleanChars_resume (c : Char) (cs ys : List Char) (hc : c ≠ '/') :
    cleanChars (cleanChars (c :: cs) ++ '/' :: ys) = cleanChars ((c :: cs) ++ '/' :: ys) := by
  have hinv : stackInv (cleanFold false [] (splitChar (c :: cs))) :=
    cleanFold_inv _ [] stackInv_nil (mem_splitChar_no_sep _)
  have hRHS : cleanChars ((c :: cs) ++ '/' :: ys)
      = assembleRel (cleanFold false (cleanFold false [] (splitChar (c :: cs))) (splitChar ys)) := by
    rw [show (c :: cs) ++ '/' :: ys = c :: (cs ++ '/' :: ys) from rfl,
      cleanChars_cons c _ hc,
      show c :: (cs ++ '/' :: ys) = (c :: cs) ++ '/' :: ys from rfl,
      splitChar_append, cleanFold_append]
  rcases hrev : (cleanFold false [] (splitChar (c :: cs))).reverse with _ | ⟨k, ks⟩
  · have hstack : cleanFold false [] (splitChar (c :: cs)) = [] :=
      List.reverse_eq_nil_iff.mp hrev
    have hclean : cleanChars (c :: cs) = ['.'] := by
      rw [cleanChars_cons c cs hc]
      simp only [assembleRel]
      rw [hrev]
    rw [hclean, hRHS, hstack]
    rw [show (['.'] : List Char) ++ '/' :: ys = '.' :: ('/' :: ys) from rfl,
      cleanChars_cons '.' _ (by decide),
      show ('.' : Char) :: ('/' :: ys) = ['.'] ++ '/' :: ys from rfl,
      splitChar_append,
      show splitChar ['.'] = [['.']] from by decide,
      cleanFold_append,
      show cleanFold false [] [['.']] = [] from by decide]
  · have hgoodall : ∀ x ∈ k :: ks, goodComp x := by
      intro x hx
      exact hinv.1 x (List.mem_reverse.mp (by rw [hrev]; exact hx))
    have hk := hgoodall k (by simp)
    obtain ⟨d, kt, rfl⟩ : ∃ d kt, k = d :: kt := by
      cases k with
      | nil => exact absurd rfl hk.1
      | cons d kt => exact ⟨d, kt, rfl⟩
    have hd : d ≠ '/' := fun e => hk.2.2 (by rw [e]; exact List.mem_cons_self _ _)
    obtain ⟨ds, hds⟩ : ∃ ds, joinSlash ((d :: kt) :: ks) = d :: ds := by
      cases ks with
      | nil => exact ⟨kt, by simp [joinSlash]⟩
      | cons a b => exact ⟨kt ++ '/' :: joinSlash (a :: b), by simp [joinSlash]⟩
    have hclean : cleanChars (c :: cs) = joinSlash ((d :: kt) :: ks) := by
      rw [cleanChars_cons c cs hc]
      simp only [assembleRel]
      rw [hrev]
    rw [hclean, hds,
      show (d :: ds) ++ '/' :: ys = d :: (ds ++ '/' :: ys) from rfl,
      cleanChars_cons d _ hd,
      show d :: (ds ++ '/' :: ys) = (d :: ds) ++ '/' :: ys from rfl,
      splitChar_append, ← hds,
      splitChar_joinSlash _ (by simp) (fun x hx => (hgoodall x hx).2.2),
      cleanFold_append, ← hrev, cleanFold_resume _ hinv, hRHS]

/-! Part: String-level corollaries about Clean and Join -/

theorem strData_append (a b : String) : (a ++ b).data = a.data ++ b.data := by
  cases a
  cases b
  rfl

theorem strExt (a b : String) (h : a.data = b.data) : a = b := by
  cases a
  cases b
  exact congrArg String.mk h

theorem goClean_resume (s u : String) (c : Char) (cs : List Char)
    (hs : s.data = c :: cs) (hc : c ≠ '/') :
    goClean (goClean s ++ "/" ++ u) = goClean (s ++ "/" ++ u) := by
  apply strExt
  show cleanChars (goClean s ++ "/" ++ u).data = cleanChars (s ++ "/" ++ u).data
  have h1 : (goClean s ++ "/" ++ u).data = cleanChars s.data ++ '/' :: u.data := by
    rw [strData_append, strData_append]
    show (cleanChars s.data ++ ['/']) ++ u.data = _
    simp
  have h2 : (s ++ "/" ++ u).data = s.data ++ '/' :: u.data := by
    rw [strData_append, strData_append]
    simp
  rw [h1, h2, hs, cleanChars_resume c cs u.data hc]

theorem cleanChars_ne_nil (cs : List Char) : cleanChars cs ≠ [] := by
  cases cs with
  | nil => simp [cleanChars]
  | cons c rest =>
    by_cases hc : c = '/'
    · simp only [cleanChars, if_pos hc]
      rcases h : (cleanFold true [] (splitChar (c :: rest))).reverse with _ | ⟨k, ks⟩ <;>
        simp [assembleAbs, h]
    · have hinv : stackInv (cleanFold false [] (splitChar (c :: rest))) :=
        cleanFold_inv _ [] stackInv_nil (mem_splitChar_no_sep _)
      simp only [cleanChars, if_neg hc]
      rcases h : (cleanFold false [] (splitChar (c :: rest))).reverse with _ | ⟨k, ks⟩
      · simp [assembleRel, h]
      · have hk : goodComp k :=
          hinv.1 k (List.mem_reverse.mp (by rw [h]; exact List.mem_cons_self _ _))
        obtain ⟨d, kt, rfl⟩ : ∃ d kt, k = d :: kt := by
          cases k with
          | nil => exact absurd rfl hk.1
          | cons d kt => exact ⟨d, kt, rfl⟩
        simp only [assembleRel, h]
        cases ks with
        | nil => simp [joinSlash]
        | cons a b => simp [joinSlash]

theorem goClean_ne_empty (s : String) : goClean s ≠ "" := by
  intro h
  exact cleanChars_ne_nil s.data (congrArg String.data h)

theorem goClean_head_no_slash (s : String) (c : Char) (cs : List Char)
    (hs : s.data = c :: cs) (hc : c ≠ '/') :
    ∀ d ds, (goClean s).data = d :: ds → d ≠ '/' := by
  intro d ds hgc
  have hinv : stackInv (cleanFold false [] (splitChar (c :: cs))) :=
    cleanFold_inv _ [] stackInv_nil (mem_splitChar_no_sep _)
  have hgc2 : cleanChars (c :: cs) = d :: ds := by
    rw [← hs]
    exact hgc
  rw [cleanChars_cons c cs hc] at hgc2
  rcases h : (cleanFold false [] (splitChar (c :: cs))).reverse with _ | ⟨k, ks⟩
  · simp only [assembleRel, h] at hgc2
    cases hgc2
    decide
  · have hk : goodComp k :=
      hinv.1 k (List.mem_reverse.mp (by rw [h]; exact List.mem_cons_self _ _))
    obtain ⟨e, kt, rfl⟩ : ∃ e kt, k = e :: kt := by
      cases k with
      | nil => exact absurd rfl hk.1
      | cons e kt => exact ⟨e, kt, rfl⟩
    have he : e ≠ '/' := fun he => hk.2.2 (by rw [he]; exact List.mem_cons_self _ _)
    simp only [assembleRel, h] at hgc2
    obtain ⟨ds2, hds⟩ : ∃ ds2, joinSlash ((e :: kt) :: ks) = e :: ds2 := by
      cases ks with
      | nil => exact ⟨kt, by simp [joinSlash]⟩
      | cons a b => exact ⟨kt ++ '/' :: joinSlash (a :: b), by simp [joinSlash]⟩
    rw [hds] at hgc2
    cases hgc2
    exact he

theorem filepathJoin_pair (x u : String) (hx : x ≠ "") :
    filepathJoin [x, u] = goClean (x ++ "/" ++ u) := by
  simp only [filepathJoin, dropEmpty, if_neg hx, joinStr]

theorem filepathJoin_triple (n u : String) :
    filepathJoin ["videos", n, u] = goClean ("videos" ++ "/" ++ n ++ "/" ++ u) := by
  simp only [filepathJoin, dropEmpty, if_neg (by decide : ¬("videos" : String) = ""), joinStr]
  apply congrArg
  apply strExt
  simp [strData_append]

theorem filepathJoin_assoc (n u : String) :
    filepathJoin [filepathJoin ["videos", n], u] = filepathJoin ["videos", n, u] := by
  have hpair : filepathJoin ["videos", n] = goClean ("videos" ++ "/" ++ n) :=
    filepathJoin_pair "videos" n (by decide)
  have hs : ("videos" ++ "/" ++ n).data = 'v' :: ("ideos/".data ++ n.data) := by
    rw [strData_append, strData_append]
    rfl
  rw [hpair,
    filepathJoin_pair _ u (goClean_ne_empty _),
    goClean_resume _ u 'v' _ hs (by decide),
    filepathJoin_triple]

/-! Part: Small helper lemmas about the state model -/

theorem fswrite_fswrite (fs : FS) (p : String) (b1 b2 : Bytes) :
    fswrite (fswrite fs p b1) p b2 = fswrite fs p b2 := by
  funext q
  unfold fswrite
  by_cases h : q = p <;> simp [h]

theorem existsTitle_append_left (cat l : Catalog) (t : String)
    (h : existsTitle cat t = true) : existsTitle (cat ++ l) t = true := by
  unfold existsTitle at *
  rw [List.any_append, h]
  rfl

theorem existsTitle_insertUnlessExists (cat : Catalog) (t p : String) :
    existsTitle (insertUnlessExists cat t p true) t = true := by
  unfold insertUnlessExists
  by_cases h : existsTitle cat t = true
  · rw [if_pos h]
    exact h
  · rw [if_neg h, if_pos rfl]
    simp [existsTitle, List.any_append]

theorem insertUnlessExists_failed (cat : Catalog) (t p : String) :
    insertUnlessExists cat t p false = cat := by
  unfold insertUnlessExists
  by_cases h : existsTitle cat t = true
  · rw [if_pos h]
  · rw [if_neg h, if_neg (by decide)]

/-! Part: Claim C1: the segment phase of a mirror job -/

/-- Claim C1: during a mirror job on a media playlist, the code loop
over mediaPlaylist.Segments behaves exactly as the spec run over the
valid segment entries (every non-nil entry with a non-empty URI, in
document order): each segment URL is resolved as
baseURL + "/" + name + "/" + uri with name the locally derived title,
each segment is written to the videos/name/uri location (the code
computes filepath.Join(filepath.Join("videos", name), uri), equal to
filepath.Join("videos", name, uri)), overwriting any existing file, and
the first download or write failure aborts the whole run at once with
no retry, no skip and no cleanup of files already written. -/
theorem c1_segment_phase_refined (w : MirrorWorld) (name baseURL : String)
    (segs : List (Option Segment)) (fs : FS) :
    segmentLoop w (filepathJoin ["videos", name]) name baseURL segs fs
      = specMirrorSegments w name baseURL (validSegs segs) fs := by
  induction segs generalizing fs with
  | nil => rfl
  | cons seg rest ih =>
    cases seg with
    | none =>
      show segmentLoop w (filepathJoin ["videos", name]) name baseURL rest fs = _
      rw [ih fs]
      rfl
    | some s =>
      by_cases hu : s.uri = ""
      · simp only [segmentLoop, validSegs, if_pos hu]
        exact ih fs
      · simp only [segmentLoop, validSegs, if_neg hu, specMirrorSegments]
        rw [filepathJoin_assoc]
        cases hf : w.fetch (baseURL ++ "/" ++ name ++ "/" ++ s.uri) with
        | none => rfl
        | some body =>
          dsimp only
          by_cases hcr : w.createOk (filepathJoin ["videos", name, s.uri]) = true
          · rw [if_pos hcr, if_pos hcr]
            by_cases hcp : w.copyOk (filepathJoin ["videos", name, s.uri]) = true
            · rw [if_pos hcp, if_pos hcp, fswrite_fswrite]
              exact ih _
            · rw [if_neg hcp, if_neg hcp]
          · rw [if_neg hcr, if_neg hcr]

/-! Part: Claim C2: which responses carry the CORS header -/

theorem toResponse_no_cors (o : Outcome) :
    ("Access-Control-Allow-Origin", "*") ∉ (toResponse o).headers := by
  cases o <;> simp [toResponse]

/-- Claim C2 counterexample: a GET /videos response carries no
Access-Control-Allow-Origin header, because only the static file server
is wrapped in addHeaders; so not every response of the application
carries that header. -/
theorem c2_cors_counterexample :
    ("Access-Control-Allow-Origin", "*") ∉
      (serve wNoFetch false false false fs0 reqVideos st0).1.headers := by
  decide

/-- Claim C2 amended: exactly the responses of the static file route
(every path other than /video, /download and /videos) carry
Access-Control-Allow-Origin *; the responses of the three application
handlers never carry it, since only the file server is wrapped in
addHeaders. -/
theorem c2_cors_static_only (w : MirrorWorld) (lf qf sf : Bool)
    (fsrv : Request → HttpResponse) (req : Request) (st : AppState) :
    (req.path ≠ "/video" → req.path ≠ "/download" → req.path ≠ "/videos" →
      ("Access-Control-Allow-Origin", "*") ∈ (serve w lf qf sf fsrv req st).1.headers)
    ∧ (req.path = "/video" ∨ req.path = "/download" ∨ req.path = "/videos" →
      ("Access-Control-Allow-Origin", "*") ∉ (serve w lf qf sf fsrv req st).1.headers) := by
  constructor
  · intro h1 h2 h3
    simp only [serve, if_neg h1, if_neg h2, if_neg h3, addHeaders]
    exact List.mem_cons_self _ _
  · intro h
    rcases h with h | h | h
    · simp only [serve, if_pos h]
      exact toResponse_no_cors _
    · have h1 : req.path ≠ "/video" := by rw [h]; decide
      simp only [serve, if_neg h1, if_pos h]
      by_cases hm : req.method ≠ "POST"
      · rw [if_pos hm]
        exact toResponse_no_cors _
      · rw [if_neg hm]
        exact toResponse_no_cors (downloadHandler w req.dlBody st).1
    · have h1 : req.path ≠ "/video" := by rw [h]; decide
      have h2 : req.path ≠ "/download" := by rw [h]; decide
      simp only [serve, if_neg h1, if_neg h2, if_pos h]
      exact toResponse_no_cors _

/-- Witness for the amended C2 theorem at concrete requests. -/
theorem c2_cors_static_only_witness :
    ("Access-Control-Allow-Origin", "*") ∈
      (serve wNoFetch false false false fs0 reqStatic st0).1.headers
    ∧ ("Access-Control-Allow-Origin", "*") ∉
      (serve wNoFetch false false false fs0 reqVideos st0).1.headers :=
  ⟨(c2_cors_static_only wNoFetch false false false fs0 reqStatic st0).1
     (by decide) (by decide) (by decide),
   (c2_cors_static_only wNoFetch false false false fs0 reqVideos st0).2
     (Or.inr (Or.inr rfl))⟩

/-! Part: Claim C3: storage faults during request handling -/

/-- Claim C3 counterexample: a storage fault in the catalog Exists
check while serving a valid POST /download request makes the handler
call log.Fatalf, terminating the process, instead of mapping the fault
to a recoverable internal-error response. -/
theorem c3_store_fault_counterexample :
    (downloadHandler wExistsFault ⟨urlX⟩ st0).1 = Outcome.fatal := by
  decide

/-- Claim C3 amended: a Lookup fault during POST /video is mapped to a
500 response; but a storage fault in the Exists check terminates the
process even when it happens while serving a /download request, and an
Insert fault during /download is only logged, the job continues with
the catalog unchanged and no error response is produced. -/
theorem c3_store_fault_amended (w : MirrorWorld) (req : ReplicaRequest) (st : AppState)
    (vreq : VideoRequest) (host : String) (cat : Catalog) (u : UrlParts) :
    (vreq.title ≠ "" → videoLinkHandler true "POST" host vreq cat
        = Outcome.httpError 500 "Database error")
    ∧ (req.url ≠ "" → w.parseURL req.url = some u → w.mkdirOk = true →
        w.existsFault = true → (downloadHandler w req st).1 = Outcome.fatal)
    ∧ (req.url ≠ "" → w.parseURL req.url = some u → w.mkdirOk = true →
        w.existsFault = false → w.insertOk = false →
        (downloadHandler w req st).2.catalog = st.catalog) := by
  refine ⟨?_, ?_, ?_⟩
  · intro ht
    simp [videoLinkHandler, ht]
  · intro hu hp hm hf
    simp [downloadHandler, hu, hp, hm, hf]
  · intro hu hp hm hf hi
    simp only [downloadHandler, if_neg hu, hp, hm, hf, hi]
    simp only [Bool.true_eq_false, if_false, Bool.false_eq_true, insertUnlessExists_failed]
    split
    · rfl
    · split
      · rfl
      · split
        · rfl
        · split
          · rfl
          · split
            · rfl
            · split
              · split
                · rfl
                · rfl
              · rfl

/-- Witness for the amended C3 theorem at concrete inputs. -/
theorem c3_store_fault_amended_witness :
    videoLinkHandler true "POST" "h" ⟨"index", ""⟩ []
        = Outcome.httpError 500 "Database error"
    ∧ (downloadHandler wExistsFault ⟨urlX⟩ st0).1 = Outcome.fatal
    ∧ (downloadHandler wInsertFail ⟨urlX⟩ st0).2.catalog = st0.catalog :=
  ⟨(c3_store_fault_amended wExistsFault ⟨urlX⟩ st0 ⟨"index", ""⟩ "h" [] upX).1 (by decide),
   (c3_store_fault_amended wExistsFault ⟨urlX⟩ st0 ⟨"index", ""⟩ "h" [] upX).2.1
     (by decide) (by decide) (by decide) (by decide),
   (c3_store_fault_amended wInsertFail ⟨urlX⟩ st0 ⟨"index", ""⟩ "h" [] upX).2.2
     (by decide) (by decide) (by decide) (by decide) (by decide)⟩

/-! Part: Claim C4: a failed or non-media parse of the playlist -/

/-- Claim C4 counterexample: when the downloaded playlist fails to
parse, the handler returns without writing any response, so the client
does not receive the 200 plain-text confirmation the claim promises for
that case. -/
theorem c4_parse_failure_counterexample :
    (downloadHandler wDecodeFail ⟨urlX⟩ st0).1 = Outcome.silent
    ∧ (downloadHandler wDecodeFail ⟨urlX⟩ st0).1
        ≠ Outcome.plain "Downloaded and saved files successfully" := by
  constructor <;> decide

/-- Claim C4 amended: when the playlist parses to a non-media kind the
job stops before any segment download and is treated as success, the
client receiving the 200 plain-text confirmation and the state showing
only the playlist write; when parsing fails, the handler instead
returns early without writing any response. -/
theorem c4_parse_outcome (w : MirrorWorld) (req : ReplicaRequest) (st : AppState)
    (u : UrlParts) (body : Bytes)
    (hu : req.url ≠ "") (hp : w.parseURL req.url = some u) (hm : w.mkdirOk = true)
    (hf : w.existsFault = false) (hfe : w.fetch req.url = some body)
    (hcr : w.createOk (playlistOutput req.url) = true)
    (hcp : w.copyOk (playlistOutput req.url) = true) (hr : w.readOk = true) :
    (w.decode body = none → (downloadHandler w req st).1 = Outcome.silent)
    ∧ (∀ segs, w.decode body = some (M3UKind.master, segs) →
        downloadHandler w req st
          = (Outcome.plain "Downloaded and saved files successfully",
             ⟨insertUnlessExists st.catalog (jobName req.url) (dbPath req.url) w.insertOk,
              fswrite (fswrite st.fs (playlistOutput req.url) []) (playlistOutput req.url)
                body⟩)) := by
  constructor
  · intro hd
    simp [downloadHandler, hu, hp, hm, hf, hfe, hcr, hcp, hr, fswrite, hd]
  · intro segs hd
    simp [downloadHandler, hu, hp, hm, hf, hfe, hcr, hcp, hr, fswrite, hd]

/-- Witness for the amended C4 theorem: a concrete master-playlist run
answers 200 with no segment writes. -/
theorem c4_parse_outcome_witness :
    (downloadHandler wDecodeFail ⟨urlX⟩ st0).1 = Outcome.silent
    ∧ downloadHandler wMaster ⟨urlX⟩ st0
        = (Outcome.plain "Downloaded and saved files successfully",
           ⟨insertUnlessExists st0.catalog (jobName urlX) (dbPath urlX) wMaster.insertOk,
            fswrite (fswrite st0.fs (playlistOutput urlX) []) (playlistOutput urlX) [7]⟩) :=
  ⟨(c4_parse_outcome wDecodeFail ⟨urlX⟩ st0 upX [7] (by decide) (by decide) (by decide)
     (by decide) (by decide) (by decide) (by decide) (by decide)).1 (by decide),
   (c4_parse_outcome wMaster ⟨urlX⟩ st0 upX [7] (by decide) (by decide) (by decide)
     (by decide) (by decide) (by decide) (by decide) (by decide)).2
     [some ⟨"s0.ts"⟩] (by decide)⟩

/-! Part: Claim C5: the catalog entry is registered before any download -/

/-- Claim C5: under a fault-free catalog store, a POST /download job
whose URL parses and whose destination directory is created sets the
catalog to exactly the insert-unless-exists of
(name, videos/name/playlist-filename) no matter how the downloads go:
the registration happens before any bytes are fetched, so after a job
that fails during any segment download the entry for the title is still
present even though the segment file is absent. -/
theorem c5_catalog_preregistration (w : MirrorWorld) (req : ReplicaRequest) (st : AppState)
    (u : UrlParts)
    (hu : req.url ≠ "") (hp : w.parseURL req.url = some u) (hm : w.mkdirOk = true)
    (hf : w.existsFault = false) (hi : w.insertOk = true) :
    (downloadHandler w req st).2.catalog
      = insertUnlessExists st.catalog (jobName req.url) (dbPath req.url) true
    ∧ existsTitle (downloadHandler w req st).2.catalog (jobName req.url) = true := by
  have hcat : (downloadHandler w req st).2.catalog
      = insertUnlessExists st.catalog (jobName req.url) (dbPath req.url) true := by
    simp only [downloadHandler, if_neg hu, hp, hm, hf, hi]
    simp only [Bool.true_eq_false, Bool.false_eq_true, if_false]
    repeat' first | rfl | split
  refine ⟨hcat, ?_⟩
  rw [hcat]
  exact existsTitle_insertUnlessExists _ _ _

/-- Witness for C5: with every fetch failing, nothing is downloaded
and the catalog entry is nevertheless present afterwards. -/
theorem c5_catalog_preregistration_witness :
    (downloadHandler wNoFetch ⟨urlX⟩ st0).2.catalog
      = insertUnlessExists st0.catalog (jobName urlX) (dbPath urlX) true
    ∧ existsTitle (downloadHandler wNoFetch ⟨urlX⟩ st0).2.catalog (jobName urlX) = true :=
  c5_catalog_preregistration wNoFetch ⟨urlX⟩ st0 upX (by decide) (by decide) (by decide)
    (by decide) (by decide)

/-! Part: Claim C6: how POST /download reports errors -/

/-- Claim C6 counterexample: a request whose url field is present but
malformed (one Go url.Parse rejects, such as a value with no scheme
before a colon) is answered with no response at all, not with 400. -/
theorem c6_malformed_url_counterexample :
    (downloadHandler wParseFail ⟨":x"⟩ st0).1 = Outcome.silent
    ∧ (downloadHandler wParseFail ⟨":x"⟩ st0).1
        ≠ Outcome.httpError 400 "Missing URL in request body" := by
  constructor <;> decide

/-- Claim C6 amended: POST /download responds 400 exactly when the
decoded url field is empty (or the body fails JSON decoding, answered
400 before this model starts); a url value that fails URL parsing is
treated like every other internal fetch, parse or filesystem error
after that validation: assuming the catalog Exists check does not
fault, the handler either returns early writing no response status or
body, or completes and answers 200. -/
theorem c6_download_errors (w : MirrorWorld) (req : ReplicaRequest) (st : AppState) :
    (req.url = "" →
      (downloadHandler w req st).1 = Outcome.httpError 400 "Missing URL in request body")
    ∧ (req.url ≠ "" → w.existsFault = false →
      (downloadHandler w req st).1 = Outcome.silent
      ∨ (downloadHandler w req st).1
          = Outcome.plain "Downloaded and saved files successfully") := by
  constructor
  · intro hu
    simp [downloadHandler, hu]
  · intro hu hf
    simp only [downloadHandler, if_neg hu, hf]
    simp only [Bool.false_eq_true, if_false]
    repeat' first | (left; rfl) | (right; rfl) | split

/-- Witness for the amended C6 theorem at concrete inputs. -/
theorem c6_download_errors_witness :
    (downloadHandler wNoFetch ⟨""⟩ st0).1 = Outcome.httpError 400 "Missing URL in request body"
    ∧ ((downloadHandler wNoFetch ⟨urlX⟩ st0).1 = Outcome.silent
      ∨ (downloadHandler wNoFetch ⟨urlX⟩ st0).1
          = Outcome.plain "Downloaded and saved files successfully") :=
  ⟨(c6_download_errors wNoFetch ⟨""⟩ st0).1 rfl,
   (c6_download_errors wNoFetch ⟨urlX⟩ st0).2 (by decide) (by decide)⟩

/-! Part: Claim C7: POST /video -/

/-- Claim C7: for a fault-free store, a POST /video request with an
empty (or absent, decoded as empty) title is answered 400, a title with
no catalog row is answered 404, and a cataloged title is answered with
a JSON url built from the request host and the catalog path with the
videos/ storage prefix trimmed. -/
theorem c7_video_link (host : String) (cat : Catalog) (req : VideoRequest) :
    (req.title = "" → videoLinkHandler false "POST" host req cat
        = Outcome.httpError 400 "Missing title in request body")
    ∧ (req.title ≠ "" → lookupTitle cat req.title = none →
        videoLinkHandler false "POST" host req cat = Outcome.httpError 404 "Video not found")
    ∧ (∀ p, req.title ≠ "" → lookupTitle cat req.title = some p →
        videoLinkHandler false "POST" host req cat
          = Outcome.json (urlBody ("http://" ++ host ++ "/" ++ trimLead p "videos/"))) := by
  refine ⟨?_, ?_, ?_⟩
  · intro ht
    simp [videoLinkHandler, ht]
  · intro ht hl
    simp [videoLinkHandler, ht, hl]
  · intro p ht hl
    simp [videoLinkHandler, ht, hl]

/-- Witness for C7 at a concrete host, catalog and request. -/
theorem c7_video_link_witness :
    videoLinkHandler false "POST" "h" ⟨"", ""⟩ cat7
        = Outcome.httpError 400 "Missing title in request body"
    ∧ videoLinkHandler false "POST" "h" ⟨"other", ""⟩ cat7
        = Outcome.httpError 404 "Video not found"
    ∧ videoLinkHandler false "POST" "h" ⟨"index", ""⟩ cat7
        = Outcome.json (urlBody ("http://" ++ "h" ++ "/"
            ++ trimLead "videos/index/index.m3u8" "videos/")) :=
  ⟨(c7_video_link "h" cat7 ⟨"", ""⟩).1 rfl,
   (c7_video_link "h" cat7 ⟨"other", ""⟩).2.1 (by decide) (by decide),
   (c7_video_link "h" cat7 ⟨"index", ""⟩).2.2 "videos/index/index.m3u8"
     (by decide) (by decide)⟩

/-! Part: Claim C8: idempotence of Catalog Sync -/

theorem syncStep_extends (cat : Catalog) (p : String) :
    ∃ l, syncStep cat p = cat ++ l := by
  unfold syncStep insertUnlessExists
  by_cases h1 : filepathExt p = ".m3u8"
  · rw [if_pos h1]
    by_cases h2 : existsTitle cat (syncTitle p) = true
    · rw [if_pos h2]
      exact ⟨[], by simp⟩
    · rw [if_neg h2, if_pos rfl]
      exact ⟨[(syncTitle p, p)], rfl⟩
  · rw [if_neg h1]
    exact ⟨[], by simp⟩

theorem existsTitle_catalogSync_mono (paths : List String) (cat : Catalog) (t : String)
    (h : existsTitle cat t = true) : existsTitle (catalogSync cat paths) t = true := by
  induction paths generalizing cat with
  | nil => exact h
  | cons p rest ih =>
    show existsTitle (catalogSync (syncStep cat p) rest) t = true
    obtain ⟨l, hl⟩ := syncStep_extends cat p
    exact ih _ (hl ▸ existsTitle_append_left cat l t h)

theorem existsTitle_syncStep_self (cat : Catalog) (p : String)
    (h : filepathExt p = ".m3u8") :
    existsTitle (syncStep cat p) (syncTitle p) = true := by
  unfold syncStep
  rw [if_pos h]
  exact existsTitle_insertUnlessExists cat (syncTitle p) p

theorem existsTitle_catalogSync_all (paths : List String) (cat : Catalog) :
    ∀ p ∈ paths, filepathExt p = ".m3u8" →
      existsTitle (catalogSync cat paths) (syncTitle p) = true := by
  induction paths generalizing cat with
  | nil => simp
  | cons q rest ih =>
    intro p hp hext
    rcases List.mem_cons.mp hp with e | m
    · subst e
      show existsTitle (catalogSync (syncStep cat p) rest) (syncTitle p) = true
      exact existsTitle_catalogSync_mono rest _ _ (existsTitle_syncStep_self cat p hext)
    · show existsTitle (catalogSync (syncStep cat q) rest) (syncTitle p) = true
      exact ih _ p m hext

theorem catalogSync_stable (paths : List String) (cat : Catalog)
    (h : ∀ p ∈ paths, filepathExt p = ".m3u8" → existsTitle cat (syncTitle p) = true) :
    catalogSync cat paths = cat := by
  induction paths generalizing cat with
  | nil => rfl
  | cons p rest ih =>
    have hstep : syncStep cat p = cat := by
      unfold syncStep
      by_cases hext : filepathExt p = ".m3u8"
      · rw [if_pos hext]
        unfold insertUnlessExists
        rw [if_pos (h p (by simp) hext)]
      · rw [if_neg hext]
    show catalogSync (syncStep cat p) rest = cat
    rw [hstep]
    exact ih cat (fun q hq hext => h q (by simp [hq]) hext)

theorem existsTitle_false_not_mem (cat : Catalog) (t : String)
    (h : ¬existsTitle cat t = true) : t ∉ cat.map Prod.fst := by
  intro hm
  rcases List.mem_map.mp hm with ⟨r, hr, he⟩
  exact h (by
    unfold existsTitle
    rw [List.any_eq_true]
    exact ⟨r, hr, by rw [he]; exact beq_self_eq_true t⟩)

theorem titleNodup_syncStep (cat : Catalog) (p : String)
    (h : titleNodup cat) : titleNodup (syncStep cat p) := by
  unfold syncStep
  by_cases hext : filepathExt p = ".m3u8"
  · rw [if_pos hext]
    unfold insertUnlessExists
    by_cases he : existsTitle cat (syncTitle p) = true
    · rw [if_pos he]
      exact h
    · rw [if_neg he, if_pos rfl]
      unfold titleNodup at *
      rw [List.map_append, List.nodup_append]
      refine ⟨h, by simp, ?_⟩
      intro a ha hb
      simp only [List.map_cons, List.map_nil, List.mem_singleton] at hb
      subst hb
      exact existsTitle_false_not_mem cat _ he ha
  · rw [if_neg hext]
    exact h

theorem titleNodup_catalogSync (paths : List String) (cat : Catalog)
    (h : titleNodup cat) : titleNodup (catalogSync cat paths) := by
  induction paths generalizing cat with
  | nil => exact h
  | cons p rest ih =>
    show titleNodup (catalogSync (syncStep cat p) rest)
    exact ih _ (titleNodup_syncStep cat p h)

/-- Claim C8: running the startup scan a second time over the same
path list changes nothing: every playlist title it would insert already
exists after the first run, so the catalog is equal to the one the
first run produced; and a fault-free scan keeps titles free of
duplicates. -/
theorem c8_sync_idempotent (cat : Catalog) (paths : List String) :
    catalogSync (catalogSync cat paths) paths = catalogSync cat paths
    ∧ (titleNodup cat → titleNodup (catalogSync cat paths)) := by
  constructor
  · exact catalogSync_stable paths _
      (fun p hp hext => existsTitle_catalogSync_all paths cat p hp hext)
  · exact titleNodup_catalogSync paths cat

/-- Witness for C8 on a concrete storage tree. -/
theorem c8_sync_idempotent_witness :
    catalogSync (catalogSync [] paths8) paths8 = catalogSync [] paths8
    ∧ titleNodup (catalogSync [] paths8) :=
  ⟨(c8_sync_idempotent [] paths8).1,
   (c8_sync_idempotent [] paths8).2 (by simp [titleNodup])⟩

/-! Part: Claim C9: GET /videos on an empty catalog -/

/-- Claim C9: with no catalog rows, GET /videos answers 200 with body
titles null (a JSON null rather than an empty array), because the
titles slice is still the nil slice when no row was scanned and a nil
Go slice encodes as null. -/
theorem c9_empty_titles_null :
    (serve wNoFetch false false false fs0 reqVideos st0).1
      = ⟨200, [("Content-Type", "application/json")], "\x7b\"titles\":null\x7d\n"⟩ := by
  decide

/-! Part: Claim C10: segment destination paths are not sanitised -/

/-- Claim C10: the destination of a segment write is
filepath.Join("videos", name, uri) (the code computes the equal nested
join of dir and uri) with no containment check, so a segment URI with
parent-directory components is written outside videos/name: with name
index and URI ../../evil.ts the loop writes the file at evil.ts, which
does not lie under videos/index, and writes nothing under that
directory. -/
theorem c10_segment_path_escape :
    filepathJoin [filepathJoin ["videos", "index"], "../../evil.ts"]
        = filepathJoin ["videos", "index", "../../evil.ts"]
    ∧ filepathJoin ["videos", "index", "../../evil.ts"] = "evil.ts"
    ∧ strLeads "videos/index/" "evil.ts" = false
    ∧ resultOk (segmentLoop wEscape (filepathJoin ["videos", "index"]) "index" "h://a"
        [some ⟨"../../evil.ts"⟩] emptyFS) = true
    ∧ resultFS (segmentLoop wEscape (filepathJoin ["videos", "index"]) "index" "h://a"
        [some ⟨"../../evil.ts"⟩] emptyFS) "evil.ts" = some [7]
    ∧ resultFS (segmentLoop wEscape (filepathJoin ["videos", "index"]) "index" "h://a"
        [some ⟨"../../evil.ts"⟩] emptyFS) "videos/index/evil.ts" = none := by
  refine ⟨?_, ?_, ?_, ?_, ?_, ?_⟩ <;> decide

end VideoService
